import Mathlib

set_option linter.unusedVariables false

namespace MLBL

/-!
Verification of the multimodal log-bilinear language model trainer
(`src/lm/mlbl.py`, Python 2).  The trainer's pure numerical kernels
(forward pass, backward pass, momentum update, hyperparameter schedule)
are embedded over `ℚ`; the training loop's stopping logic is embedded as
a recursive function over an environment of externally supplied
activations and validation scores.  Python 2 semantics are preserved:
`/` on machine integers is floor division (`Nat.div` here).
-/

/-! ## Hyperparameter schedule (`MLBL.update_hyperparams`, lines 248-257)

`eta_t`, `p_t`, `p_i`, `p_f`, `f` are Python floats (embedded as `ℚ`);
`T` and `step` are Python ints, so `(self.step + 1) / self.T` is integer
(floor) division in Python 2. -/

structure Sched where
  eta_t : ℚ
  p_t : ℚ
  p_i : ℚ
  p_f : ℚ
  f : ℚ
  T : ℕ
  step : ℕ
deriving DecidableEq

/-- `MLBL.update_hyperparams` (lines 248-257): `eta_t *= f`, and
`p_t = (1 - (step+1)/T) * p_i + ((step+1)/T) * p_f` while `step < T`,
else `p_t = p_f`.  The division `(step+1)/T` is Python 2 integer
division, embedded as `Nat` division before casting to `ℚ`. -/
def update_hyperparams (s : Sched) : Sched :=
  { s with
    eta_t := s.eta_t * s.f
    p_t :=
      if s.step < s.T then
        (1 - (((s.step + 1) / s.T : ℕ) : ℚ)) * s.p_i
          + (((s.step + 1) / s.T : ℕ) : ℚ) * s.p_f
      else s.p_f }

/-- One scheduled invocation as performed by `MLBL.train`
(lines 316-318 and 336-337): `self.update_hyperparams()` followed by
`self.step += 1`. -/
def schedInvoke (s : Sched) : Sched :=
  let s' := update_hyperparams s
  { s' with step := s'.step + 1 }

/-- Schedule state at the start of training: `p_t` as set by
`MLBL.__init__` line 78 (`(1 - (1/T)) * p_i + (1/T) * p_f`, again with
Python 2 integer division `1/T`), `step = 0` as set by `MLBL.train`
line 273. -/
def schedInit (p_i p_f f eta : ℚ) (T : ℕ) : Sched :=
  { eta_t := eta
    p_t := (1 - ((1 / T : ℕ) : ℚ)) * p_i + ((1 / T : ℕ) : ℚ) * p_f
    p_i := p_i
    p_f := p_f
    f := f
    T := T
    step := 0 }

/-- Modelled from the spec: the linear momentum annealing formula
`p_t = (1 − step/T)·p_i + (step/T)·p_f` with true (rational) division,
as the spec and the claim state it.  This is a comparison definition
following the spec's words; the code's own computation is
`update_hyperparams` above. -/
def linearMomentum (step T : ℕ) (p_i p_f : ℚ) : ℚ :=
  (1 - (step : ℚ) / (T : ℚ)) * p_i + ((step : ℚ) / (T : ℚ)) * p_f

/-! ## Trainer state (`MLBL` parameters, momentum buffers, gradients)

Matrices are plain functions `Fin a → Fin b → ℚ`.  `dotm` is `np.dot`,
`trm` is `.T`. -/

def dotm {a b c : ℕ} (A : Fin a → Fin b → ℚ) (B : Fin b → Fin c → ℚ) :
    Fin a → Fin c → ℚ :=
  fun i j => ∑ k, A i k * B k j

def trm {a b : ℕ} (A : Fin a → Fin b → ℚ) : Fin b → Fin a → ℚ :=
  fun i j => A j i

/-- The mutable trainer object: parameters `R, C, bw, M, J, bj`
(shapes as in `MLBL.init_params`), the momentum buffers `delta*`
(lines 112-117), the gradient fields `d*` written by `MLBL.backward`
(lines 216-221), and the scalar hyperparameters read by the kernels. -/
structure TState (V K ctx h D : ℕ) where
  R : Fin K → Fin V → ℚ
  C : Fin ctx → Fin K → Fin K → ℚ
  bw : Fin V → ℚ
  M : Fin h → Fin K → ℚ
  J : Fin D → Fin h → ℚ
  bj : Fin h → ℚ
  deltaR : Fin K → Fin V → ℚ
  deltaC : Fin ctx → Fin K → Fin K → ℚ
  deltaB : Fin V → ℚ
  deltaM : Fin h → Fin K → ℚ
  deltaJ : Fin D → Fin h → ℚ
  deltaBj : Fin h → ℚ
  dR : Fin K → Fin V → ℚ
  dC : Fin ctx → Fin K → Fin K → ℚ
  db : Fin V → ℚ
  dM : Fin h → Fin K → ℚ
  dJ : Fin D → Fin h → ℚ
  dBj : Fin h → ℚ
  dropout : ℚ
  eta_t : ℚ
  p_t : ℚ
  gamma_r : ℚ
  gamma_c : ℚ

/-- All-zero trainer state, used to build concrete instances. -/
def zeroTState (V K ctx h D : ℕ) : TState V K ctx h D where
  R := fun _ _ => 0
  C := fun _ _ _ => 0
  bw := fun _ => 0
  M := fun _ _ => 0
  J := fun _ _ => 0
  bj := fun _ => 0
  deltaR := fun _ _ => 0
  deltaC := fun _ _ _ => 0
  deltaB := fun _ => 0
  deltaM := fun _ _ => 0
  deltaJ := fun _ _ => 0
  deltaBj := fun _ => 0
  dR := fun _ _ => 0
  dC := fun _ _ _ => 0
  db := fun _ => 0
  dM := fun _ _ => 0
  dJ := fun _ _ => 0
  dBj := fun _ => 0
  dropout := 0
  eta_t := 0
  p_t := 0
  gamma_r := 0
  gamma_c := 0

variable {b V K ctx h D : ℕ}

/-- `MLBL.update_params` (lines 223-246): for each parameter `P` with
gradient `dP` and buffer `δP`,
`δP ← p_t·δP − (1−p_t)·(η_t/n)·dP` then `P ← P + δP`, where
`n = X.shape[0]` is the number of rows of the minibatch. -/
def update_params (s : TState V K ctx h D) (n : ℕ) : TState V K ctx h D :=
  let deltaC' : Fin ctx → Fin K → Fin K → ℚ := fun c i j =>
    s.p_t * s.deltaC c i j - (1 - s.p_t) * (s.eta_t / (n : ℚ)) * s.dC c i j
  let deltaR' : Fin K → Fin V → ℚ := fun k v =>
    s.p_t * s.deltaR k v - (1 - s.p_t) * (s.eta_t / (n : ℚ)) * s.dR k v
  let deltaB' : Fin V → ℚ := fun v =>
    s.p_t * s.deltaB v - (1 - s.p_t) * (s.eta_t / (n : ℚ)) * s.db v
  let deltaM' : Fin h → Fin K → ℚ := fun i k =>
    s.p_t * s.deltaM i k - (1 - s.p_t) * (s.eta_t / (n : ℚ)) * s.dM i k
  let deltaJ' : Fin D → Fin h → ℚ := fun d i =>
    s.p_t * s.deltaJ d i - (1 - s.p_t) * (s.eta_t / (n : ℚ)) * s.dJ d i
  let deltaBj' : Fin h → ℚ := fun i =>
    s.p_t * s.deltaBj i - (1 - s.p_t) * (s.eta_t / (n : ℚ)) * s.dBj i
  { s with
    deltaC := deltaC', deltaR := deltaR', deltaB := deltaB'
    deltaM := deltaM', deltaJ := deltaJ', deltaBj := deltaBj'
    C := fun c i j => s.C c i j + deltaC' c i j
    R := fun k v => s.R k v + deltaR' k v
    bw := fun v => s.bw v + deltaB' v
    M := fun i k => s.M i k + deltaM' i k
    J := fun d i => s.J d i + deltaJ' d i
    bj := fun i => s.bj i + deltaBj' i }

/-- Concrete state with zero learning rate but a nonzero momentum
buffer for `R`, refuting claim C4 as stated. -/
def c4State : TState 1 1 1 1 1 :=
  { zeroTState 1 1 1 1 1 with eta_t := 0, p_t := 1/2, deltaR := fun _ _ => 2 }

/-! ## Striped minibatch assignment (`MLBL.train`, lines 274-275, 292-296)

`inds = np.arange(len(X))`, `numbatches = len(inds) / self.batchsize`
(Python 2 integer division), and minibatch `m` selects the slice
`inds[m::numbatches]`, i.e. the positions `m, m+numbatches, …` of the
shuffled index array. -/

/-- `numbatches = len(inds) / batchsize`, Python 2 floor division. -/
def numbatches (N bs : ℕ) : ℕ := N / bs

/-- Python slice `[start::step]` of a length-`N` array: the positions
`start, start+step, start+2·step, …` below `N`, in increasing order. -/
def sliceStride (N start step : ℕ) : List ℕ :=
  (List.range N).filter fun i => decide (start ≤ i ∧ (i - start) % step = 0)

/-- The shuffled-array positions making up minibatch `m`:
`inds[m::numbatches]` from line 294. -/
def minibatchInds (N bs m : ℕ) : List ℕ :=
  sliceStride N m (numbatches N bs)

/-! ## Training loop stopping logic (`MLBL.train`, lines 267-338)

The loop's control state is `best`, `count` (patience counter), `done`
and the set of requested checkpoint writes.  The numerical work of each
minibatch (forward / backward / update) and the external evaluator are
abstracted into an environment: `actsAt e m` is the hidden-activation
matrix produced at epoch `e`, minibatch `m` (its float entries embedded
as `FloatVal` so that `np.isnan` is meaningful), and `bleuAt e m` is
`some` metric sequence exactly when the BLEU cadence gate
`np.mod(minibatch * batchsize, prog) == 0` fires there.  They do not
feed back into the stopping logic except through the checks the code
performs, which are modelled verbatim. -/

/-- An IEEE double as stored in the activation matrix: a finite value,
a NaN, or an infinity. -/
inductive FloatVal where
  | finite : ℚ → FloatVal
  | nan : FloatVal
  | posInf : FloatVal
  | negInf : FloatVal
deriving DecidableEq

/-- `np.isnan` on one value: true only for NaN, not for infinities. -/
def FloatVal.isnan : FloatVal → Bool
  | .nan => true
  | _ => false

/-- `np.isfinite` on one value. -/
def FloatVal.isFiniteVal : FloatVal → Bool
  | .finite _ => true
  | _ => false

/-- `np.sum(np.isnan(acts)) > 0` (line 303): some entry is NaN. -/
def hasNan (A : List (List FloatVal)) : Bool :=
  A.any fun row => row.any FloatVal.isnan

/-- From the claim's words: the matrix contains a non-finite value
(NaN or an infinity).  Comparison definition for the divergence check;
the code's own test is `hasNan`. -/
def hasNonFinite (A : List (List FloatVal)) : Bool :=
  A.any fun row => row.any fun x => !x.isFiniteVal

/-- `patience = 10`, the constant set at line 280. -/
def patience : ℕ := 10

/-- Stopping-relevant loop state: `best = 0.0`, `count = 0`,
`done = False` initially (lines 278-282); `saves` records the
checkpoint writes requested via `lm_tools.save_model` (line 329). -/
structure LoopSt where
  best : ℚ
  count : ℕ
  done : Bool
  saves : List (ℕ × ℕ)
deriving DecidableEq

/-- Environment of one training run, as seen by the stopping logic. -/
structure LoopEnv where
  maxepoch : ℕ
  numbatches : ℕ
  actsAt : ℕ → ℕ → List (List FloatVal)
  bleuAt : ℕ → ℕ → Option (List ℚ)

/-- One minibatch body (lines 300-334), restricted to the stopping
state: after the forward/backward/update calls, break with
`done = True` if `np.sum(np.isnan(acts)) > 0`; otherwise, when the
BLEU gate fires (only for `minibatch > 0`), compare `bleu[-1]` with
`best`: on `bleu[-1] >= best` reset `count`, record the new best and
request a checkpoint write, else increment `count` and stop when it
reaches `patience`. -/
def mbStep (env : LoopEnv) (e m : ℕ) (s : LoopSt) : LoopSt :=
  if hasNan (env.actsAt e m) then { s with done := true }
  else if 0 < m then
    match env.bleuAt e m with
    | some bl =>
      let sc := bl.getLastD 0
      if s.best ≤ sc then
        { s with count := 0, best := sc, saves := s.saves ++ [(e, m)] }
      else if s.count + 1 = patience then
        { s with count := s.count + 1, done := true }
      else { s with count := s.count + 1 }
    | none => s
  else s

/-- One processed minibatch in the execution trace: its epoch and
minibatch index and the loop state before and after its body ran. -/
structure TrEntry where
  ep : ℕ
  mb : ℕ
  pre : LoopSt
  post : LoopSt
deriving DecidableEq

/-- The inner minibatch loop (line 292): process the minibatch indices
in order, breaking as soon as a body sets `done`.  Returns the final
state and the trace of processed minibatches. -/
def runInner (env : LoopEnv) (e : ℕ) : LoopSt → List ℕ → LoopSt × List TrEntry
  | s, [] => (s, [])
  | s, m :: ms =>
    let s' := mbStep env e m s
    if s'.done then (s', [⟨e, m, s, s'⟩])
    else
      let r := runInner env e s' ms
      (r.1, ⟨e, m, s, s'⟩ :: r.2)

/-- The outer epoch loop (lines 286-288): `for epoch in range(maxepoch)`
with `if done: break` at the top of each iteration. -/
def runEpochs (env : LoopEnv) : LoopSt → List ℕ → LoopSt × List TrEntry
  | s, [] => (s, [])
  | s, e :: es =>
    if s.done then (s, [])
    else
      let r1 := runInner env e s (List.range env.numbatches)
      let r2 := runEpochs env r1.1 es
      (r2.1, r1.2 ++ r2.2)

/-- `MLBL.train`: run all epochs from the initial stopping state. -/
def trainLoop (env : LoopEnv) : LoopSt × List TrEntry :=
  runEpochs env ⟨0, 0, false, []⟩ (List.range env.maxepoch)

/-- The value `train` returns (line 338): the best score recorded. -/
def trainBest (env : LoopEnv) : ℚ := (trainLoop env).1.best

/-- The trace of minibatches the run processed. -/
def trainTrace (env : LoopEnv) : List TrEntry := (trainLoop env).2

/-- Environment with a +Inf (non-finite but not NaN) activation in the
first minibatch and a second minibatch after it. -/
def envC3 : LoopEnv where
  maxepoch := 1
  numbatches := 2
  actsAt := fun e m =>
    if e = 0 ∧ m = 0 then [[FloatVal.posInf]] else [[FloatVal.finite 0]]
  bleuAt := fun _ _ => none

/-- Environment whose only NaN activation appears at epoch 0,
minibatch 1, with a second epoch scheduled after it. -/
def envW3 : LoopEnv where
  maxepoch := 2
  numbatches := 2
  actsAt := fun e m =>
    if e = 0 ∧ m = 1 then [[FloatVal.nan]] else [[FloatVal.finite 0]]
  bleuAt := fun _ _ => none

/-- The minibatch at which `envW3` diverges, with its pre/post states. -/
def enW3 : TrEntry where
  ep := 0
  mb := 1
  pre := ⟨0, 0, false, []⟩
  post := ⟨0, 0, true, []⟩

/-- Environment realizing the early-stop scenario at the code's
hardcoded patience of 10: one improving evaluation (score 2) at
minibatch 1, then ten consecutive non-improving evaluations (score 1)
at minibatches 2 through 11, with minibatch 12 still scheduled. -/
def envW8 : LoopEnv where
  maxepoch := 1
  numbatches := 13
  actsAt := fun _ _ => [[FloatVal.finite 0]]
  bleuAt := fun e m =>
    if e = 0 ∧ m = 1 then some [2]
    else if e = 0 ∧ 2 ≤ m ∧ m ≤ 11 then some [1] else none

/-- The 10th consecutive non-improving evaluation of `envW8`. -/
def enW8 : TrEntry where
  ep := 0
  mb := 11
  pre := ⟨2, 9, false, [(0, 1)]⟩
  post := ⟨2, 10, true, [(0, 1)]⟩

/-! ## Forward and backward passes (`MLBL.forward`, `MLBL.backward`)

`np.exp` is transcendental, so the forward pass is parameterized by the
exponential map `E : ℚ → ℚ`; the only property of `np.exp` the softmax
depends on is positivity on finite inputs, which theorems take as a
hypothesis on `E`. -/

/-- `preds.max(1)` (line 165): row-wise maximum of a `b × V` matrix. -/
def rowMax [NeZero V] (P : Fin b → Fin V → ℚ) (i : Fin b) : ℚ :=
  Finset.univ.sup' ⟨⟨0, Nat.pos_of_ne_zero (NeZero.ne V)⟩, Finset.mem_univ _⟩ (P i)

/-- `MLBL.forward` (lines 133-168): image features through `J`/`bj` and
ReLU; in training mode with `dropout > 0`, the mask
`np.random.rand(batchsize, h) > dropout` drawn from the ambient global
NumPy generator (its uniform draws passed in as `U`); word features
gathered from the columns of `R`; hidden activation summing the
per-position context transforms plus the image term (`M` scaled by
`1 - dropout` at test time); softmax with row-wise max subtraction.
Returns `(words, acts, IF, preds)`. -/
def forward (E : ℚ → ℚ) [NeZero V] (s : TState V K ctx h D)
    (X : Fin b → Fin ctx → Fin V) (Im : Fin b → Fin D → ℚ)
    (U : Fin b → Fin h → ℚ) (test : Bool) :
    (Fin ctx → Fin b → Fin K → ℚ) × (Fin b → Fin K → ℚ)
      × (Fin b → Fin h → ℚ) × (Fin b → Fin V → ℚ) :=
  let IF0 : Fin b → Fin h → ℚ := fun i j => dotm Im s.J i j + s.bj j
  let IF1 : Fin b → Fin h → ℚ := fun i j => if 0 < IF0 i j then IF0 i j else 0
  let IF : Fin b → Fin h → ℚ :=
    if 0 < s.dropout ∧ test = false then
      fun i j => IF1 i j * (if s.dropout < U i j then 1 else 0)
    else IF1
  let words : Fin ctx → Fin b → Fin K → ℚ := fun c i k => s.R k (X i c)
  let acts : Fin b → Fin K → ℚ :=
    if test then
      fun i k => (∑ c, dotm (words c) (s.C c) i k)
        + dotm IF (fun j k2 => s.M j k2 * (1 - s.dropout)) i k
    else
      fun i k => (∑ c, dotm (words c) (s.C c) i k) + dotm IF s.M i k
  let scores : Fin b → Fin V → ℚ := fun i v => dotm acts s.R i v + s.bw v
  let preds : Fin b → Fin V → ℚ := fun i v =>
    E (scores i v - rowMax scores i) / ∑ w, E (scores i w - rowMax scores i)
  (words, acts, IF, preds)

/-- The scatter loop of `MLBL.backward` (lines 195-199): for each
context position `c` and each batch row `j`, add row `j` of `delta c`
into the column `X[j,c]` of the accumulator. -/
def scatterAdd (X : Fin b → Fin ctx → Fin V)
    (delta : Fin ctx → Fin b → Fin K → ℚ)
    (A : Fin K → Fin V → ℚ) : Fin K → Fin V → ℚ :=
  (List.finRange ctx).foldl
    (fun acc c =>
      (List.finRange b).foldl
        (fun acc2 j => fun k v => acc2 k v + if X j c = v then delta c j k else 0)
        acc)
    A

/-- `MLBL.backward` (lines 180-221): `Ix = (preds - Y)/batchsize`;
`dR = acts.T · Ix` plus, via the scatter loop, the embedding-lookup
contributions `Ix·R.T·C[c].T`; `db`, `dC`, `dM`, `dJ`, `dBj` as in the
code; weight decay `gamma_r·R` added to `dR` and `gamma_c`-decay to
`dC`, `dM`, `dJ`.  Writes the gradient fields of the state. -/
def backward (s : TState V K ctx h D) (Y preds : Fin b → Fin V → ℚ)
    (IF : Fin b → Fin h → ℚ) (acts : Fin b → Fin K → ℚ)
    (words : Fin ctx → Fin b → Fin K → ℚ)
    (X : Fin b → Fin ctx → Fin V) (Im : Fin b → Fin D → ℚ) :
    TState V K ctx h D :=
  let Ix : Fin b → Fin V → ℚ := fun i v => (preds i v - Y i v) / (b : ℚ)
  let dR0 := dotm (trm acts) Ix
  let db0 : Fin V → ℚ := fun v => ∑ i, Ix i v
  let Ix2 := dotm Ix (trm s.R)
  let dC0 : Fin ctx → Fin K → Fin K → ℚ := fun c => dotm (trm (words c)) Ix2
  let dR1 := scatterAdd X (fun c => dotm Ix2 (trm (s.C c))) dR0
  let dM0 := dotm (trm IF) Ix2
  let Ix3 : Fin b → Fin h → ℚ := fun i j =>
    dotm Ix2 (trm s.M) i j * (if 0 < IF i j then 1 else 0)
  let dJ0 := dotm (trm Im) Ix3
  let dBj0 : Fin h → ℚ := fun j => ∑ i, Ix3 i j
  { s with
    dR := fun k v => dR1 k v + s.gamma_r * s.R k v
    dC := fun c i j => dC0 c i j + s.gamma_c * s.C c i j
    db := db0
    dM := fun j k => dM0 j k + s.gamma_c * s.M j k
    dJ := fun d j => dJ0 d j + s.gamma_c * s.J d j
    dBj := dBj0 }

/-- One training-mode minibatch of `MLBL.train` (lines 300-302):
`forward(test=False)` (consuming the global generator's uniform draws
`U` for the dropout mask), `backward`, `update_params`. -/
def trainStep (E : ℚ → ℚ) [NeZero V] (s : TState V K ctx h D)
    (X : Fin b → Fin ctx → Fin V) (Im : Fin b → Fin D → ℚ)
    (Y : Fin b → Fin V → ℚ) (U : Fin b → Fin h → ℚ) : TState V K ctx h D :=
  let fw := forward E s X Im U false
  let s1 := backward s Y fw.2.2.2 fw.2.2.1 fw.2.1 fw.1 X Im
  update_params s1 b

/-- `np.exp` stand-in for concrete evaluation: the constant-one map,
positive everywhere like the exponential. -/
def oneE : ℚ → ℚ := fun _ => 1

/-- Concrete context indices, image features and uniform draws at the
smallest sizes, used by witnesses. -/
def wX1 : Fin 1 → Fin 1 → Fin 1 := fun _ _ => 0

def wIm1 : Fin 1 → Fin 1 → ℚ := fun _ _ => 0

def wU1 : Fin 1 → Fin 1 → ℚ := fun _ _ => 0

/-- Trainer state for the C6 counterexample: `dropout = 1/2`, tied
matrix `R = [1, 0]`, image path `J = M = 1`, unit learning rate,
momentum coefficient `1/2`, vocabulary of two words. -/
def c6State : TState 2 1 1 1 1 :=
  { zeroTState 2 1 1 1 1 with
    R := fun _ v => if v = 0 then 1 else 0
    M := fun _ _ => 1
    J := fun _ _ => 1
    dropout := 1/2
    eta_t := 1
    p_t := 1/2 }

def c6X : Fin 1 → Fin 1 → Fin 2 := fun _ _ => 0

def c6Im : Fin 1 → Fin 1 → ℚ := fun _ _ => 1

def c6Y : Fin 1 → Fin 2 → ℚ := fun _ v => if v = 0 then 1 else 0

/-- Ambient global-generator draws that keep the hidden unit. -/
def c6U1 : Fin 1 → Fin 1 → ℚ := fun _ _ => 1

/-- Ambient global-generator draws that drop the hidden unit. -/
def c6U0 : Fin 1 → Fin 1 → ℚ := fun _ _ => 0

/-! ## Theorems: momentum update (claims about `update_params`) -/

/-- Claim C2: for each of the six parameters `R, C, bw, M, J, bj`,
`update_params` replaces the momentum buffer `δP` by
`p_t·δP − (1−p_t)·(η_t/n)·dP`, `n` being the number of rows of the
minibatch, and then adds the buffer to the parameter (`P ← P + δP`).
The new buffer is computed from the buffer left by the previous
minibatch (it is read from the incoming state, never reset), so it
carries over to the next update. -/
theorem update_params_momentum_sgd (s : TState V K ctx h D) (n : ℕ)
    (hn : 0 < n) :
    ((update_params s n).deltaR = fun k v =>
        s.p_t * s.deltaR k v - (1 - s.p_t) * (s.eta_t / (n : ℚ)) * s.dR k v)
    ∧ ((update_params s n).R = fun k v => s.R k v + (update_params s n).deltaR k v)
    ∧ ((update_params s n).deltaC = fun c i j =>
        s.p_t * s.deltaC c i j - (1 - s.p_t) * (s.eta_t / (n : ℚ)) * s.dC c i j)
    ∧ ((update_params s n).C = fun c i j => s.C c i j + (update_params s n).deltaC c i j)
    ∧ ((update_params s n).deltaB = fun v =>
        s.p_t * s.deltaB v - (1 - s.p_t) * (s.eta_t / (n : ℚ)) * s.db v)
    ∧ ((update_params s n).bw = fun v => s.bw v + (update_params s n).deltaB v)
    ∧ ((update_params s n).deltaM = fun i k =>
        s.p_t * s.deltaM i k - (1 - s.p_t) * (s.eta_t / (n : ℚ)) * s.dM i k)
    ∧ ((update_params s n).M = fun i k => s.M i k + (update_params s n).deltaM i k)
    ∧ ((update_params s n).deltaJ = fun d i =>
        s.p_t * s.deltaJ d i - (1 - s.p_t) * (s.eta_t / (n : ℚ)) * s.dJ d i)
    ∧ ((update_params s n).J = fun d i => s.J d i + (update_params s n).deltaJ d i)
    ∧ ((update_params s n).deltaBj = fun i =>
        s.p_t * s.deltaBj i - (1 - s.p_t) * (s.eta_t / (n : ℚ)) * s.dBj i)
    ∧ ((update_params s n).bj = fun i => s.bj i + (update_params s n).deltaBj i) :=
  ⟨rfl, rfl, rfl, rfl, rfl, rfl, rfl, rfl, rfl, rfl, rfl, rfl⟩

/-- Witness for C2: the update theorem applied at a concrete state and
minibatch row count `n = 1`. -/
theorem update_params_momentum_sgd_witness :
    0 < 1
    ∧ (update_params (zeroTState 1 1 1 1 1) 1).R
        = fun k v => (zeroTState 1 1 1 1 1).R k v
            + (update_params (zeroTState 1 1 1 1 1) 1).deltaR k v :=
  ⟨Nat.one_pos, (update_params_momentum_sgd (zeroTState 1 1 1 1 1) 1 Nat.one_pos).2.1⟩

/-- Counterexample to claim C4 as stated: with `η_t = 0` but a nonzero
momentum buffer (`δR = 2`, `p_t = 1/2`), `update_params` changes `R`
(by `p_t·δR = 1`), so the parameters are not left unchanged
"regardless of the current contents of the momentum buffers". -/
theorem zero_lr_still_moves_params :
    c4State.eta_t = 0 ∧ (update_params c4State 1).R ≠ c4State.R := by
  refine ⟨rfl, fun hcontra => ?_⟩
  have h00 := congrFun (congrFun hcontra 0) 0
  simp [update_params, c4State, zeroTState] at h00

/-- Claim C4 as amended: when `η_t = 0`, each momentum buffer decays to
`p_t` times its previous value, and each parameter changes by exactly
`p_t` times its previous buffer (`P ← P + p_t·δP`); in particular the
parameters are unchanged only when the buffers are zero. -/
theorem zero_lr_update (s : TState V K ctx h D) (n : ℕ)
    (he : s.eta_t = 0) :
    ((update_params s n).deltaR = fun k v => s.p_t * s.deltaR k v)
    ∧ ((update_params s n).R = fun k v => s.R k v + s.p_t * s.deltaR k v)
    ∧ ((update_params s n).deltaC = fun c i j => s.p_t * s.deltaC c i j)
    ∧ ((update_params s n).C = fun c i j => s.C c i j + s.p_t * s.deltaC c i j)
    ∧ ((update_params s n).deltaB = fun v => s.p_t * s.deltaB v)
    ∧ ((update_params s n).bw = fun v => s.bw v + s.p_t * s.deltaB v)
    ∧ ((update_params s n).deltaM = fun i k => s.p_t * s.deltaM i k)
    ∧ ((update_params s n).deltaJ = fun d i => s.p_t * s.deltaJ d i)
    ∧ ((update_params s n).J = fun d i => s.J d i + s.p_t * s.deltaJ d i)
    ∧ ((update_params s n).M = fun i k => s.M i k + s.p_t * s.deltaM i k)
    ∧ ((update_params s n).deltaBj = fun i => s.p_t * s.deltaBj i)
    ∧ ((update_params s n).bj = fun i => s.bj i + s.p_t * s.deltaBj i) := by
  refine ⟨?_, ?_, ?_, ?_, ?_, ?_, ?_, ?_, ?_, ?_, ?_, ?_⟩ <;>
    · funext
      simp [update_params, he]

/-- Witness for the amended C4: applied at a concrete zero-`η` state. -/
theorem zero_lr_update_witness :
    (zeroTState 1 1 1 1 1).eta_t = 0
    ∧ (update_params (zeroTState 1 1 1 1 1) 1).deltaR
        = fun k v => (zeroTState 1 1 1 1 1).p_t * (zeroTState 1 1 1 1 1).deltaR k v :=
  ⟨rfl, (zero_lr_update (zeroTState 1 1 1 1 1) 1 rfl).1⟩

/-! ## Theorems: momentum schedule (claim C5) -/

/-- Claim C5 (code bug evaluation): the momentum schedule is not the
linear annealing `p_t = (1 − step/T)·p_i + (step/T)·p_f`.  With
`p_i = 0`, `p_f = 1`, `T = 4`, after two scheduled invocations the code
yields `p_t = 0` (it keeps `p_t = p_i` for every step before the `T`-th
because `(step+1)/T` is Python 2 integer division), while the linear
formula at step 2 gives `1/2`.  The part of the claim that does hold:
after exactly `T` scheduled invocations `p_t = p_f`. -/
theorem momentum_schedule_not_linear :
    (schedInvoke (schedInvoke (schedInit 0 1 1 1 4))).p_t = 0
    ∧ linearMomentum 2 4 0 1 = 1/2
    ∧ (schedInvoke (schedInvoke (schedInvoke (schedInvoke (schedInit 0 1 1 1 4))))).p_t = 1 := by
  refine ⟨?_, by norm_num [linearMomentum], ?_⟩ <;>
    norm_num [schedInvoke, update_hyperparams, schedInit]

/-- Helper: membership in a minibatch slice is membership in the
arithmetic progression `m, m + numbatches, m + 2·numbatches, …`. -/
lemma mem_minibatchInds (N bs m i : ℕ) :
    i ∈ minibatchInds N bs m ↔ i < N ∧ ∃ t, i = m + t * numbatches N bs := by
  unfold minibatchInds sliceStride
  simp only [List.mem_filter, List.mem_range, decide_eq_true_eq]
  constructor
  · rintro ⟨hiN, hmi, hmod⟩
    refine ⟨hiN, (i - m) / numbatches N bs, ?_⟩
    have hdvd : numbatches N bs ∣ (i - m) := Nat.dvd_of_mod_eq_zero hmod
    rw [Nat.div_mul_cancel hdvd, Nat.add_sub_cancel' hmi]
  · rintro ⟨hiN, t, rfl⟩
    exact ⟨hiN, Nat.le_add_right m _,
      by rw [Nat.add_sub_cancel_left, Nat.mul_mod_left]⟩

/-- Claim C7: minibatch `m` consists of the shuffled positions
`{m, m + numbatches, m + 2·numbatches, …}` below `N` — a striped
(interleaved) assignment, not contiguous blocks; in particular for
`N = 23`, `batchsize = 5` (`numbatches = 4`) minibatch 0 is
`{0,4,8,12,16,20}` and minibatch 1 is `{1,5,9,13,17,21}`. -/
theorem striped_minibatch_assignment :
    (∀ N bs m i, i ∈ minibatchInds N bs m
        ↔ i < N ∧ ∃ t, i = m + t * numbatches N bs)
    ∧ minibatchInds 23 5 0 = [0, 4, 8, 12, 16, 20]
    ∧ minibatchInds 23 5 1 = [1, 5, 9, 13, 17, 21] :=
  ⟨mem_minibatchInds, by decide, by decide⟩

/-- Counterexample to claim C10 as stated: with `N = 3` training
examples and `batchsize = 5`, `numbatches = 0`, so there are no
minibatches at all and example 0 is processed zero times in the epoch —
the striped minibatches do not cover the training positions. -/
theorem small_dataset_is_not_partitioned :
    numbatches 3 5 = 0
    ∧ ∀ m, ¬ (m < numbatches 3 5 ∧ 0 ∈ minibatchInds 3 5 m) :=
  ⟨rfl, fun m hm => Nat.not_lt_zero m hm.1⟩

/-- Claim C10 as amended: provided `numbatches ≥ 1` (i.e.
`batchsize ≤ N`), the striped minibatches form an exact partition of
the `N` training positions: every position lies in exactly one
minibatch (namely minibatch `i % numbatches`), each minibatch lists it
once, and when `batchsize` does not divide `N` some minibatch holds
more than `batchsize` positions (no trailing positions are dropped). -/
theorem striped_minibatches_partition :
    (∀ N bs i, 0 < numbatches N bs → i < N →
        ∃! m, m < numbatches N bs ∧ i ∈ minibatchInds N bs m)
    ∧ (∀ N bs m, (minibatchInds N bs m).Nodup)
    ∧ 5 < (minibatchInds 23 5 0).length := by
  refine ⟨?_, fun N bs m => (List.nodup_range N).filter _, by decide⟩
  intro N bs i h0 hi
  have hmem : ∀ m, i ∈ minibatchInds N bs m
      ↔ i < N ∧ ∃ t, i = m + t * numbatches N bs :=
    fun m => mem_minibatchInds N bs m i
  refine ⟨i % numbatches N bs, ⟨Nat.mod_lt i h0, ?_⟩, ?_⟩
  · rw [hmem]
    refine ⟨hi, i / numbatches N bs, ?_⟩
    rw [Nat.mul_comm, Nat.add_comm]
    exact (Nat.div_add_mod i (numbatches N bs)).symm
  · rintro m ⟨hmlt, hmmem⟩
    rw [hmem] at hmmem
    obtain ⟨-, t, rfl⟩ := hmmem
    rw [Nat.add_mul_mod_self_right, Nat.mod_eq_of_lt hmlt]

/-- Witness for C7: the membership characterization applied at the
concrete position 5 of minibatch 1 for `N = 23`, `batchsize = 5`. -/
theorem striped_minibatch_assignment_witness :
    5 ∈ minibatchInds 23 5 1 ↔ 5 < 23 ∧ ∃ t, 5 = 1 + t * numbatches 23 5 :=
  striped_minibatch_assignment.1 23 5 1 5

/-- Witness for the amended C10: exactly-once coverage applied at the
concrete input `N = 23`, `batchsize = 5`, position 7. -/
theorem striped_minibatches_partition_witness :
    0 < numbatches 23 5 ∧ 7 < 23
    ∧ ∃! m, m < numbatches 23 5 ∧ 7 ∈ minibatchInds 23 5 m :=
  ⟨by decide, by decide,
    striped_minibatches_partition.1 23 5 7 (by decide) (by decide)⟩

/-- Helper: a done state makes the remaining epochs a no-op. -/
lemma runEpochs_done (env : LoopEnv) (s : LoopSt) (es : List ℕ)
    (hs : s.done = true) : runEpochs env s es = (s, []) := by
  cases es with
  | nil => rfl
  | cons e es => simp [runEpochs, hs]

/-- Helper: every entry of an inner-loop trace records one `mbStep`,
and an entry whose post-state is done is the last entry and yields the
loop's final state. -/
lemma runInner_trace (env : LoopEnv) (e : ℕ) :
    ∀ (l : List ℕ) (s : LoopSt) (en : TrEntry),
      en ∈ (runInner env e s l).2 →
      en.ep = e ∧ en.post = mbStep env en.ep en.mb en.pre
      ∧ (en.post.done = true →
          (runInner env e s l).2.getLast? = some en
          ∧ (runInner env e s l).1 = en.post) := by
  intro l
  induction l with
  | nil => intro s en hen; simp [runInner] at hen
  | cons m ms ih =>
    intro s en hen
    by_cases hdone : (mbStep env e m s).done = true
    · rw [runInner, if_pos hdone] at hen ⊢
      simp only [List.mem_singleton] at hen
      subst hen
      exact ⟨rfl, rfl, fun _ => ⟨rfl, rfl⟩⟩
    · rw [runInner, if_neg hdone] at hen ⊢
      dsimp only at hen ⊢
      rw [List.mem_cons] at hen
      rcases hen with rfl | hen
      · exact ⟨rfl, rfl, fun hpost => absurd hpost hdone⟩
      · obtain ⟨hep, hstep, hlast⟩ := ih (mbStep env e m s) en hen
        refine ⟨hep, hstep, fun hpost => ?_⟩
        obtain ⟨hl, hf⟩ := hlast hpost
        have hne : (runInner env e (mbStep env e m s) ms).2 ≠ [] := by
          intro habs
          rw [habs] at hl
          simp at hl
        refine ⟨?_, hf⟩
        rw [← List.singleton_append, List.getLast?_append_of_ne_nil _ hne, hl]

/-- Helper: same as `runInner_trace`, lifted through the epoch loop. -/
lemma runEpochs_trace (env : LoopEnv) :
    ∀ (es : List ℕ) (s : LoopSt) (en : TrEntry),
      en ∈ (runEpochs env s es).2 →
      en.post = mbStep env en.ep en.mb en.pre
      ∧ (en.post.done = true →
          (runEpochs env s es).2.getLast? = some en
          ∧ (runEpochs env s es).1 = en.post) := by
  intro es
  induction es with
  | nil => intro s en hen; simp [runEpochs] at hen
  | cons e es ih =>
    intro s en hen
    by_cases hs : s.done = true
    · rw [runEpochs, if_pos hs] at hen
      simp at hen
    · rw [runEpochs, if_neg hs] at hen ⊢
      dsimp only at hen ⊢
      rw [List.mem_append] at hen
      rcases hen with hen | hen
      · obtain ⟨hep, hstep, hlast⟩ := runInner_trace env e _ s en hen
        refine ⟨hstep, fun hpost => ?_⟩
        obtain ⟨hl, hf⟩ := hlast hpost
        have hrest : runEpochs env (runInner env e s (List.range env.numbatches)).1 es
            = ((runInner env e s (List.range env.numbatches)).1, []) :=
          runEpochs_done env _ es (by rw [hf, hpost])
        rw [hrest]
        simp only [List.append_nil]
        exact ⟨hl, hf⟩
      · obtain ⟨hstep, hlast⟩ := ih _ en hen
        refine ⟨hstep, fun hpost => ?_⟩
        obtain ⟨hl, hf⟩ := hlast hpost
        have hne : (runEpochs env (runInner env e s (List.range env.numbatches)).1 es).2 ≠ [] := by
          intro habs
          rw [habs] at hl
          simp at hl
        refine ⟨?_, hf⟩
        rw [List.getLast?_append_of_ne_nil _ hne, hl]

/-- Counterexample to claim C3 as stated: the divergence check is
`np.sum(np.isnan(acts)) > 0`, which is false for an activation matrix
containing +Inf, so the loop does not stop within that minibatch — it
goes on to process minibatch 1 even though minibatch 0 produced a
non-finite activation. -/
theorem inf_activation_does_not_stop :
    hasNonFinite (envC3.actsAt 0 0) = true
    ∧ hasNan (envC3.actsAt 0 0) = false
    ∧ (trainTrace envC3).map (fun en => (en.ep, en.mb)) = [(0, 0), (0, 1)] :=
  ⟨by decide, by decide, by decide⟩

/-- Claim C3 as amended: if, after the parameter update of a processed
minibatch, the hidden activation contains a NaN (the code's check is
`np.isnan`, which infinities do not trigger), the loop stops within
that same minibatch — it is the last minibatch of the whole run, both
loops aborting — and `train` returns the best score recorded so far
(the best as of entry to that minibatch, the aborted minibatch never
reaching its own validation step). -/
theorem train_stops_on_nan (env : LoopEnv) (en : TrEntry)
    (h1 : en ∈ trainTrace env)
    (h2 : hasNan (env.actsAt en.ep en.mb) = true) :
    (trainTrace env).getLast? = some en ∧ trainBest env = en.pre.best := by
  obtain ⟨hstep, hlast⟩ :=
    runEpochs_trace env (List.range env.maxepoch) ⟨0, 0, false, []⟩ en h1
  have hpost : en.post = { en.pre with done := true } := by
    rw [hstep]
    simp [mbStep, h2]
  have hdone : en.post.done = true := by rw [hpost]
  obtain ⟨hl, hf⟩ := hlast hdone
  refine ⟨hl, ?_⟩
  show (trainLoop env).1.best = en.pre.best
  have : (trainLoop env).1 = en.post := hf
  rw [this, hpost]

/-- Witness for the amended C3: the NaN-stop theorem applied at the
concrete run `envW3`, whose NaN at epoch 0, minibatch 1 ends the run
there despite a second scheduled epoch. -/
theorem train_stops_on_nan_witness :
    enW3 ∈ trainTrace envW3
    ∧ hasNan (envW3.actsAt enW3.ep enW3.mb) = true
    ∧ (trainTrace envW3).getLast? = some enW3
    ∧ trainBest envW3 = enW3.pre.best :=
  ⟨by decide, by decide,
    (train_stops_on_nan envW3 enW3 (by decide) (by decide)).1,
    (train_stops_on_nan envW3 enW3 (by decide) (by decide)).2⟩

/-- Claim C8: at a processed validation evaluation (a minibatch whose
BLEU gate fired, on the non-NaN path), if the new score — the last
element of the evaluator's metric sequence — is at least the best so
far, the patience counter resets to 0, the new best is recorded and a
checkpoint write is requested; otherwise the counter increments, the
run stopping at this very evaluation exactly when the counter reaches
`patience` (10). -/
theorem validation_patience_logic (env : LoopEnv) (en : TrEntry)
    (h1 : en ∈ trainTrace env)
    (h2 : hasNan (env.actsAt en.ep en.mb) = false)
    (h3 : 0 < en.mb)
    (bl : List ℚ) (h4 : env.bleuAt en.ep en.mb = some bl) :
    (en.pre.best ≤ bl.getLastD 0 →
        en.post.count = 0 ∧ en.post.best = bl.getLastD 0
        ∧ en.post.saves = en.pre.saves ++ [(en.ep, en.mb)]
        ∧ en.post.done = en.pre.done)
    ∧ (bl.getLastD 0 < en.pre.best →
        en.post.count = en.pre.count + 1
        ∧ en.post.best = en.pre.best
        ∧ en.post.saves = en.pre.saves
        ∧ (en.pre.count + 1 = patience →
            en.post.done = true ∧ (trainTrace env).getLast? = some en)
        ∧ (en.pre.count + 1 ≠ patience → en.post.done = en.pre.done)) := by
  obtain ⟨hstep, hlast⟩ :=
    runEpochs_trace env (List.range env.maxepoch) ⟨0, 0, false, []⟩ en h1
  rw [mbStep] at hstep
  rw [h2, h4] at hstep
  simp only [Bool.false_eq_true, if_false, if_pos h3] at hstep
  constructor
  · intro hle
    rw [if_pos hle] at hstep
    exact ⟨by rw [hstep], by rw [hstep], by rw [hstep], by rw [hstep]⟩
  · intro hlt
    have hnle : ¬ en.pre.best ≤ bl.getLastD 0 := not_le.mpr hlt
    rw [if_neg hnle] at hstep
    by_cases hp : en.pre.count + 1 = patience
    · rw [if_pos hp] at hstep
      have hdone : en.post.done = true := by rw [hstep]
      refine ⟨by rw [hstep], by rw [hstep], by rw [hstep],
        fun _ => ⟨hdone, (hlast hdone).1⟩, fun hne => absurd hp hne⟩
    · rw [if_neg hp] at hstep
      exact ⟨by rw [hstep], by rw [hstep], by rw [hstep],
        fun hp' => absurd hp' hp, fun _ => by rw [hstep]⟩

/-- Witness for C8: the patience theorem applied at the concrete run
`envW8`; at the 10th consecutive non-improving evaluation the counter
reaches `patience` and the run ends exactly there. -/
theorem validation_patience_logic_witness :
    enW8 ∈ trainTrace envW8
    ∧ enW8.post.count = enW8.pre.count + 1
    ∧ (trainTrace envW8).getLast? = some enW8 := by
  have h := validation_patience_logic envW8 enW8 (by decide) (by decide)
    (by decide) [1] (by decide)
  have h2 := h.2 (by decide)
  exact ⟨by decide, h2.1, (h2.2.2.2.1 (by decide)).2⟩

/-- Helper: the inner scatter loop over the batch adds, entrywise, the
sum of the masked contributions of its rows. -/
lemma scatterInner_eq (X : Fin b → Fin ctx → Fin V)
    (delta : Fin ctx → Fin b → Fin K → ℚ) (c : Fin ctx) :
    ∀ (l : List (Fin b)) (A : Fin K → Fin V → ℚ),
      l.foldl
        (fun acc2 j => fun k v => acc2 k v + if X j c = v then delta c j k else 0) A
      = fun k v => A k v + ((l.map fun j => if X j c = v then delta c j k else 0).sum) := by
  intro l
  induction l with
  | nil => intro A; funext k v; simp
  | cons j js ih =>
    intro A
    rw [List.foldl_cons, ih]
    funext k v
    simp [add_assoc]

/-- Helper: the scatter loop equals pointwise addition of the double
sum over context positions and batch rows. -/
lemma scatterAdd_eq (X : Fin b → Fin ctx → Fin V)
    (delta : Fin ctx → Fin b → Fin K → ℚ) (A : Fin K → Fin V → ℚ) :
    scatterAdd X delta A
      = fun k v => A k v + ∑ c, ∑ j, if X j c = v then delta c j k else 0 := by
  have inner : ∀ (c : Fin ctx) (A : Fin K → Fin V → ℚ),
      (List.finRange b).foldl
        (fun acc2 j => fun k v => acc2 k v + if X j c = v then delta c j k else 0) A
      = fun k v => A k v + ∑ j, if X j c = v then delta c j k else 0 := by
    intro c A
    rw [scatterInner_eq X delta c (List.finRange b) A]
    funext k v
    rw [Fin.sum_univ_def]
  have main : ∀ (l : List (Fin ctx)) (A : Fin K → Fin V → ℚ),
      l.foldl
        (fun acc c =>
          (List.finRange b).foldl
            (fun acc2 j => fun k v => acc2 k v + if X j c = v then delta c j k else 0)
            acc) A
      = fun k v => A k v + ((l.map fun c => ∑ j, if X j c = v then delta c j k else 0).sum) := by
    intro l
    induction l with
    | nil => intro A; funext k v; simp
    | cons c cs ih =>
      intro A
      rw [List.foldl_cons, ih]
      rw [inner c A]
      funext k v
      simp [add_assoc]
  rw [scatterAdd, main (List.finRange ctx) A]
  funext k v
  rw [Fin.sum_univ_def]

/-- Claim C1: `backward` accumulates both weight-tying gradient paths
into the single buffer `dR`: the output-projection contribution
`acts.T · Ix` and, for every context position `c` and batch row `j`,
the embedding-lookup contribution adding row `j` of `Ix·R.T·C[c].T`
at column `X[j,c]`; both are summed into the same buffer (together
with the `gamma_r` weight-decay term) before `update_params` runs,
which only ever reads the finished field. -/
theorem backward_accumulates_tied_gradients
    (s : TState V K ctx h D) (Y preds : Fin b → Fin V → ℚ)
    (IF : Fin b → Fin h → ℚ) (acts : Fin b → Fin K → ℚ)
    (words : Fin ctx → Fin b → Fin K → ℚ)
    (X : Fin b → Fin ctx → Fin V) (Im : Fin b → Fin D → ℚ) :
    (backward s Y preds IF acts words X Im).dR
      = fun k v =>
          dotm (trm acts) (fun i w => (preds i w - Y i w) / (b : ℚ)) k v
          + (∑ c, ∑ j, if X j c = v then
              dotm (dotm (fun i w => (preds i w - Y i w) / (b : ℚ)) (trm s.R))
                (trm (s.C c)) j k
            else 0)
          + s.gamma_r * s.R k v := by
  show (fun k v =>
      scatterAdd X
        (fun c => dotm (dotm (fun i w => (preds i w - Y i w) / (b : ℚ)) (trm s.R))
          (trm (s.C c)))
        (dotm (trm acts) (fun i w => (preds i w - Y i w) / (b : ℚ))) k v
      + s.gamma_r * s.R k v) = _
  rw [scatterAdd_eq]

/-- Claim C9: every row of the predicted distribution returned by
`forward` sums to 1 with all entries non-negative, for any exponential
map that is positive (as `np.exp` is on finite inputs), any parameters
and any inputs; the softmax subtracts the row maximum (`rowMax`)
before exponentiating, as written in the definition of `forward`. -/
theorem forward_softmax_rows_valid [NeZero V] (E : ℚ → ℚ)
    (hE : ∀ x, 0 < E x) (s : TState V K ctx h D)
    (X : Fin b → Fin ctx → Fin V) (Im : Fin b → Fin D → ℚ)
    (U : Fin b → Fin h → ℚ) (test : Bool) (i : Fin b) :
    (∑ v, (forward E s X Im U test).2.2.2 i v) = 1
    ∧ ∀ v, 0 ≤ (forward E s X Im U test).2.2.2 i v := by
  haveI : Nonempty (Fin V) := ⟨⟨0, Nat.pos_of_ne_zero (NeZero.ne V)⟩⟩
  obtain ⟨sc, hsc⟩ : ∃ sc : Fin b → Fin V → ℚ,
      (forward E s X Im U test).2.2.2
        = fun i v => E (sc i v - rowMax sc i) / ∑ w, E (sc i w - rowMax sc i) :=
    ⟨_, rfl⟩
  rw [hsc]
  have hS : 0 < ∑ w, E (sc i w - rowMax sc i) :=
    Finset.sum_pos (fun w _ => hE _) Finset.univ_nonempty
  constructor
  · rw [← Finset.sum_div, div_self hS.ne']
  · intro v
    exact le_of_lt (div_pos (hE _) hS)

/-- Witness for C9: the softmax theorem applied at concrete inputs of
the smallest sizes, with the positive stand-in exponential. -/
theorem forward_softmax_rows_valid_witness :
    (∀ x : ℚ, 0 < oneE x)
    ∧ (∑ v, (forward oneE (zeroTState 1 1 1 1 1) wX1 wIm1 wU1 true).2.2.2 0 v) = 1 :=
  ⟨fun _ => one_pos,
    (forward_softmax_rows_valid oneE (fun _ => one_pos)
      (zeroTState 1 1 1 1 1) wX1 wIm1 wU1 true 0).1⟩

/-- Claim C6 as amended: with `dropout = 0`, one training step does not
depend on the ambient global generator's draws `U` at all — every
remaining stochastic choice (initialization, shuffling) is made through
the explicitly seeded generators, so two runs with identical seed, data
and hyperparameters produce identical parameter trajectories. -/
theorem dropout_zero_step_deterministic [NeZero V] (E : ℚ → ℚ)
    (s : TState V K ctx h D) (hd : s.dropout = 0)
    (X : Fin b → Fin ctx → Fin V) (Im : Fin b → Fin D → ℚ)
    (Y : Fin b → Fin V → ℚ) (U1 U2 : Fin b → Fin h → ℚ) :
    trainStep E s X Im Y U1 = trainStep E s X Im Y U2 := by
  have hfw : forward E s X Im U1 false = forward E s X Im U2 false := by
    unfold forward
    rw [hd]
    norm_num
  unfold trainStep
  rw [hfw]

/-- Witness for the amended C6: a zero-dropout step evaluated under two
different ambient draw matrices. -/
theorem dropout_zero_step_deterministic_witness :
    (zeroTState 1 1 1 1 1).dropout = 0
    ∧ trainStep oneE (zeroTState 1 1 1 1 1) wX1 wIm1 (fun _ _ => 0) wU1
        = trainStep oneE (zeroTState 1 1 1 1 1) wX1 wIm1 (fun _ _ => 0) (fun _ _ => 1) :=
  ⟨rfl, dropout_zero_step_deterministic oneE (zeroTState 1 1 1 1 1) rfl
    wX1 wIm1 (fun _ _ => 0) wU1 (fun _ _ => 1)⟩

/-- Counterexample to claim C6 as stated: with `dropout = 1/2 > 0`, the
dropout mask is drawn from the ambient global NumPy generator
(`np.random.rand`, line 145), which is not seeded from the base seed,
and the parameters after one identical-seed, identical-data minibatch
differ between two ambient draw sequences: the updated `M` is `5/4`
under draws `c6U1` and `1` under draws `c6U0`.  The parameter
trajectory is therefore not a function of seed, data and
hyperparameters alone. -/
theorem dropout_mask_changes_trajectory :
    c6State.dropout = 1/2
    ∧ (trainStep oneE c6State c6X c6Im c6Y c6U1).M
        ≠ (trainStep oneE c6State c6X c6Im c6Y c6U0).M := by
  have h1 : (trainStep oneE c6State c6X c6Im c6Y c6U1).M 0 0 = 5/4 := by
    norm_num [trainStep, forward, backward, update_params, scatterAdd_eq, dotm, trm,
      oneE, c6State, c6X, c6Im, c6Y, c6U1, zeroTState, Fin.sum_univ_two,
      Fin.sum_univ_one, Finset.sum_const]
  have h0 : (trainStep oneE c6State c6X c6Im c6Y c6U0).M 0 0 = 1 := by
    norm_num [trainStep, forward, backward, update_params, scatterAdd_eq, dotm, trm,
      oneE, c6State, c6X, c6Im, c6Y, c6U0, zeroTState, Fin.sum_univ_two,
      Fin.sum_univ_one, Finset.sum_const]
  refine ⟨rfl, fun hcontra => ?_⟩
  rw [congrFun (congrFun hcontra 0) 0, h0] at h1
  norm_num at h1

end MLBL
